import Mathlib

/-!
Verification development for the FlowAnalyzer repository.

The Python sources are shallowly embedded: `bytes` values become `List Nat`
(one natural number per byte), Python `float` values become `Rat` (the code
under scrutiny only compares and transports these values; it never relies on
IEEE rounding), fallible operations return `Option`/`Except`, and the two
external byte-level collaborators that no claim inspects (gzip decompression
and URL percent-decoding, both from the Python standard library) are passed
in as explicit function parameters.
-/

set_option maxHeartbeats 1000000

namespace FlowSpec

/-- The ASCII whitespace bytes removed by Python `bytes.strip()`. -/
def isWsByte (b : Nat) : Bool :=
  b == 9 || b == 10 || b == 11 || b == 12 || b == 13 || b == 32

/-- Python `bytes.strip()`: remove ASCII whitespace from both ends. -/
def stripBytes (l : List Nat) : List Nat :=
  ((l.dropWhile isWsByte).reverse.dropWhile isWsByte).reverse

/-- Value of a single hexadecimal digit byte (`0-9`, `a-f`, `A-F`), exactly the
digits accepted by Python `int(_, 16)` and `binascii.unhexlify`. -/
def hexVal (c : Nat) : Option Nat :=
  if 48 ≤ c && c ≤ 57 then some (c - 48)
  else if 97 ≤ c && c ≤ 102 then some (c - 87)
  else if 65 ≤ c && c ≤ 70 then some (c - 55)
  else none

def hexFoldAux (acc : Nat) : List Nat → Option Nat
  | [] => some acc
  | c :: cs =>
    match hexVal c with
    | none => none
    | some d => hexFoldAux (acc * 16 + d) cs

/-- Accumulate a non-empty run of hexadecimal digit bytes into a natural. -/
def hexFold (l : List Nat) : Option Nat :=
  match l with
  | [] => none
  | _ :: _ => hexFoldAux 0 l

/-- Remove the single underscores Python numeric parsing tolerates between
digits; fail on a leading, trailing or doubled underscore.  The flag is true
when an underscore is currently illegal (at the start or right after another
underscore). -/
def remUnderscoresGo : Bool → List Nat → Option (List Nat)
  | _, [] => some []
  | afterUs, c :: rest =>
    if c == 95 then
      if afterUs then none
      else if rest.isEmpty then none
      else remUnderscoresGo true rest
    else (remUnderscoresGo false rest).map (c :: ·)

def remUnderscores (l : List Nat) : Option (List Nat) :=
  remUnderscoresGo true l

/-- Python `int(line, 16)` applied to an already-stripped byte string: an
optional sign, an optional `0x`/`0X` prefix (one underscore may follow the
prefix), then hexadecimal digits with single underscores allowed between
digits. -/
def parseHexInt (l : List Nat) : Option Int :=
  match l with
  | [] => none
  | c :: rest =>
    let sgn : Int := if c == 45 then -1 else 1
    let afterSign := if c == 45 || c == 43 then rest else l
    let body :=
      match afterSign with
      | a :: b :: r =>
        if a == 48 && (b == 120 || b == 88) then
          match r with
          | u :: r2 => if u == 95 then r2 else r
          | [] => r
        else afterSign
      | _ => afterSign
    match remUnderscores body with
    | none => none
    | some digits =>
      match hexFold digits with
      | none => none
      | some v => some (sgn * (v : Int))

def decVal (c : Nat) : Option Nat :=
  if 48 ≤ c && c ≤ 57 then some (c - 48) else none

def decFoldAux (acc : Nat) : List Nat → Option Nat
  | [] => some acc
  | c :: cs =>
    match decVal c with
    | none => none
    | some d => decFoldAux (acc * 10 + d) cs

def decFold (l : List Nat) : Option Nat :=
  match l with
  | [] => none
  | _ :: _ => decFoldAux 0 l

/-- Python `int(field)` (base 10) on a raw byte field: surrounding ASCII
whitespace is tolerated, then an optional sign and decimal digits with
single underscores between digits. -/
def parseDecInt (l : List Nat) : Option Int :=
  match stripBytes l with
  | [] => none
  | c :: rest =>
    let sgn : Int := if c == 45 then -1 else 1
    let body := if c == 45 || c == 43 then rest else c :: rest
    match remUnderscores body with
    | none => none
    | some digits =>
      match decFold digits with
      | none => none
      | some v => some (sgn * (v : Int))

/-- Split a byte list at the first occurrence of byte `b`; `none` if absent. -/
def splitAtByte (b : Nat) : List Nat → Option (List Nat × List Nat)
  | [] => none
  | c :: cs =>
    if c == b then some ([], cs)
    else (splitAtByte b cs).map (fun p => (c :: p.1, p.2))

def decFoldLenAux (acc len : Nat) : List Nat → Option (Nat × Nat)
  | [] => some (acc, len)
  | c :: cs =>
    match decVal c with
    | none => none
    | some d => decFoldLenAux (acc * 10 + d) (len + 1) cs

/-- Decimal digit group with underscore removal, returning the value and the
number of digits. -/
def decGroup (l : List Nat) : Option (Nat × Nat) :=
  match remUnderscores l with
  | none => none
  | some digits =>
    match digits with
    | [] => none
    | _ :: _ => decFoldLenAux 0 0 digits

/-- Mantissa of a Python float literal: `d+`, `d+.d*`, `.d+` (underscores
between digits). -/
def parseMantissa (l : List Nat) : Option Rat :=
  match splitAtByte 46 l with
  | none => (decGroup l).map (fun p => (p.1 : Rat))
  | some (ip, fp) =>
    match ip, fp with
    | [], [] => none
    | [], _ :: _ => (decGroup fp).map (fun p => (p.1 : Rat) / (10 : Rat) ^ p.2)
    | _ :: _, [] => (decGroup ip).map (fun p => (p.1 : Rat))
    | _ :: _, _ :: _ =>
      match decGroup ip, decGroup fp with
      | some i, some f => some ((i.1 : Rat) + (f.1 : Rat) / (10 : Rat) ^ f.2)
      | _, _ => none

def parseSigned (parse : List Nat → Option Rat) (l : List Nat) : Option Rat :=
  match l with
  | [] => none
  | c :: rest =>
    let sgn : Rat := if c == 45 then -1 else 1
    let body := if c == 45 || c == 43 then rest else c :: rest
    (parse body).map (sgn * ·)

/-- Python `float(field)` on a raw byte field: surrounding whitespace, an
optional sign, a decimal mantissa and an optional `e`/`E` exponent.  The
special values `inf`/`nan` are not modelled; no claim depends on them. -/
def parsePyFloat (l : List Nat) : Option Rat :=
  parseSigned
    (fun body =>
      match splitAtByte 101 body with
      | some (m, e) =>
        (parseMantissa m).bind (fun mv =>
          (parseSigned (fun d => (decGroup d).map (fun p => (p.1 : Rat))) e).map
            (fun ev => mv * (10 : Rat) ^ (if ev < 0 then -(ev.num.natAbs : Int) else (ev.num.natAbs : Int))))
      | none =>
        match splitAtByte 69 body with
        | some (m, e) =>
          (parseMantissa m).bind (fun mv =>
            (parseSigned (fun d => (decGroup d).map (fun p => (p.1 : Rat))) e).map
              (fun ev => mv * (10 : Rat) ^ (if ev < 0 then -(ev.num.natAbs : Int) else (ev.num.natAbs : Int))))
        | none => parseMantissa body)
    (stripBytes l)

/-- `binascii.unhexlify`: an even number of hexadecimal digit bytes decodes
pairwise to raw bytes; anything else raises (here: `none`). -/
def unhexlify : List Nat → Option (List Nat)
  | [] => some []
  | [_] => none
  | a :: b :: rest =>
    match hexVal a, hexVal b with
    | some x, some y => (unhexlify rest).map (fun r => (16 * x + y) :: r)
    | _, _ => none

/-- Index of the first `\n` byte, `bytes.find(b"\n", cursor)` restricted to
the suffix from the cursor onward. -/
def findNl : List Nat → Option Nat
  | [] => none
  | b :: bs => if b == 10 then some 0 else (findNl bs).map (· + 1)

/-! ## PacketParser.dechunk_http_response

The source loops with a cursor over `file_data`; the loop advances the cursor
by at least one byte per iteration (the size line plus its newline, then the
chunk data and any trailing CR/LF bytes), so it is modelled by recursion on
the unprocessed suffix, with a fuel argument that keeps the recursion
structural.  The initial fuel `file_data.length + 1` can never run out on
this path.  The source does not special-case a negative parsed chunk size
(`int(b"-5", 16)` succeeds in Python); on such input it goes on to slice the
buffer with Python negative-index semantics and, on some inputs, never
terminates.  The model maps any negative parsed size to the dedicated error
`negSize`; no theorem below relies on that case. -/

inductive DechunkErr where
  | noNewline
  | badSize
  | negSize
  | fuelOut
deriving DecidableEq

/-- The CR/LF-skipping loop after a chunk's data. -/
def skipCrLf (l : List Nat) : List Nat :=
  l.dropWhile (fun b => b == 13 || b == 10)

def dechunkGo : Nat → List Nat → Except DechunkErr (List (List Nat))
  | _, [] => .ok []
  | 0, _ :: _ => .error .fuelOut
  | fuel + 1, s =>
    match findNl s with
    | none => .error .noNewline
    | some i =>
      let sizeLine := stripBytes (s.take i)
      let rest := s.drop (i + 1)
      if sizeLine.isEmpty then
        dechunkGo fuel rest
      else
        match parseHexInt sizeLine with
        | none => .error .badSize
        | some sz =>
          if sz < 0 then .error .negSize
          else if sz == 0 then .ok []
          else
            let n := sz.toNat
            if rest.length < n then .ok [rest]
            else
              match dechunkGo fuel (skipCrLf (rest.drop n)) with
              | .ok cs => .ok (rest.take n :: cs)
              | .error e => .error e

/-- `PacketParser.dechunk_http_response`.  An `.ok` value is the returned
byte string; an `.error` value is the `ValueError` the source raises. -/
def dechunk_http_response (fd : List Nat) : Except DechunkErr (List Nat) :=
  (dechunkGo (fd.length + 1) fd).map (fun cs => cs.flatten)

/-! ## split_http_headers and extract_http_file_data -/

/-- Whether `pat` is an initial segment of `l`. -/
def leadsWith : List Nat → List Nat → Bool
  | [], _ => true
  | _ :: _, [] => false
  | p :: ps, c :: cs => p == c && leadsWith ps cs

/-- `bytes.find(pat)`: index of the first occurrence of `pat`, if any. -/
def findSub (pat : List Nat) : List Nat → Option Nat
  | [] => if leadsWith pat [] then some 0 else none
  | l@(_ :: rest) =>
    if leadsWith pat l then some 0 else (findSub pat rest).map (· + 1)

/-- `PacketParser.split_http_headers`: split at the first `CRLFCRLF`, else at
the first `LFLF`, else return an empty header with the whole payload as
body. -/
def split_http_headers (fd : List Nat) : List Nat × List Nat :=
  match findSub [13, 10, 13, 10] fd with
  | some i => (fd.take (i + 4), fd.drop (i + 4))
  | none =>
    match findSub [10, 10] fd with
    | some i => (fd.take (i + 2), fd.drop (i + 2))
    | none => ([], fd)

/-- The gzip step of `extract_http_file_data`: if the (possibly dechunked)
body starts with the gzip magic bytes, try the external decompressor `gzipD`
(`gzip.decompress`, modelled as an explicit parameter since no claim inspects
its algorithm); any failure keeps the body, because the source wraps the step
in `contextlib.suppress(Exception)`. -/
def gzipStage (gzipD : List Nat → Option (List Nat)) (body : List Nat) : List Nat :=
  if body.take 2 == [31, 139] then
    match gzipD body with
    | some r => r
    | none => body
  else body

/-- The chunked step of `extract_http_file_data`: `dechunk_http_response`
under `contextlib.suppress(Exception)` — on any error the body is kept. -/
def chunkedStage (body : List Nat) : List Nat :=
  match dechunk_http_response body with
  | .ok r => r
  | .error _ => body

/-- `PacketParser.extract_http_file_data`: hex-decode the field, split the
headers, then apply the best-effort chunked and gzip stages.  A hex-decode
failure (`binascii.Error`) is caught and yields `(b"", b"")`; no exception
ever propagates to the caller. -/
def extract_http_file_data (gzipD : List Nat → Option (List Nat))
    (full_request : List Nat) : List Nat × List Nat :=
  if full_request.isEmpty then ([], [])
  else
    match unhexlify full_request with
    | none => ([], [])
    | some raw =>
      let hb := split_http_headers raw
      (hb.1, gzipStage gzipD (chunkedStage hb.2))

/-! ## A chunked-transfer encoder (for the round-trip claim) -/

def hexDigitByte (d : Nat) : Nat :=
  if d < 10 then 48 + d else 87 + d

def toHexGo : Nat → Nat → List Nat
  | 0, n => [hexDigitByte (n % 16)]
  | f + 1, n => if n < 16 then [hexDigitByte n] else toHexGo f (n / 16) ++ [hexDigitByte (n % 16)]

/-- Lowercase hexadecimal representation of a natural number. -/
def toHexBytes (n : Nat) : List Nat := toHexGo n n

/-- Modelled from the spec: the repository ships no chunk encoder (the spec's
round-trip property quantifies over one), so this follows the spec's words —
"hexadecimal size lines, chunk data, CRLF separators and a terminating
zero-size chunk".  A non-empty body becomes a single chunk; the empty body is
just the terminating zero-size chunk. -/
def chunk_encode (b : List Nat) : List Nat :=
  (if b.isEmpty then [] else toHexBytes b.length ++ [13, 10] ++ b ++ [13, 10])
    ++ [48, 13, 10, 13, 10]

/-! ## PacketParser.parse_packet_data and process_row

A tshark output line is a tab-separated row of byte fields:
0 `http.response.code`, 1 `http.request_in`, 2 `tcp.reassembled.data`,
3 `frame.number`, 4 `tcp.payload`, 5 `frame.time_epoch`,
6 `exported_pdu.exported_pdu`, 7 `http.request.full_uri`,
8 `tcp.segment.count`.  Any exception inside `parse_packet_data`
(an `IndexError` from a short row or a failed `int`/`float` conversion)
is caught by `process_row` and discards the line, so all of these are
modelled with `Option`. -/

/-- Result of `parse_packet_data`. -/
structure ParsedPacket where
  frame_num : Int
  request_in : Int
  time_epoch : Rat
  full_uri : List Nat
  full_request : List Nat
deriving DecidableEq

/-- `PacketParser.parse_packet_data`.  `uriD` stands for the composition
`parse.unquote(row7.decode("utf-8", errors="replace"))` — a total standard
library transformation no claim inspects, passed in as a parameter. -/
def parse_packet_data (uriD : List Nat → List Nat) (row : List (List Nat)) :
    Option ParsedPacket :=
  match row.get? 3 with
  | none => none
  | some f3 =>
    match parseDecInt f3 with
    | none => none
    | some frame_num =>
      match row.get? 1 with
      | none => none
      | some f1 =>
        match (if f1.isEmpty then some frame_num else parseDecInt f1) with
        | none => none
        | some request_in =>
          match row.get? 7 with
          | none => none
          | some f7 =>
            let full_uri := if f7.isEmpty then [] else uriD f7
            match row.get? 5 with
            | none => none
            | some f5 =>
              match parsePyFloat f5 with
              | none => none
              | some time_epoch =>
                match row.get? 2, row.get? 4, row.get? 6 with
                | some f2, some f4, some f6 =>
                  let isReassembled :=
                    decide (8 < row.length) && !(row.getD 8 []).isEmpty
                  let full_request :=
                    if isReassembled && !f2.isEmpty then f2
                    else if !f4.isEmpty then f4
                    else if !f2.isEmpty then f2
                    else if !f6.isEmpty then f6
                    else []
                  some ⟨frame_num, request_in, time_epoch, full_uri, full_request⟩
                | _, _, _ => none

inductive RecKind where
  | request
  | response
deriving DecidableEq

/-- The structured record `process_row` hands to the database writer. -/
structure RowRecord where
  kind : RecKind
  frame_num : Int
  header : List Nat
  file_data : List Nat
  time_epoch : Rat
  request_in : Int
  full_uri : List Nat
deriving DecidableEq

/-- Python `line.rstrip(b"\r\n")`: strip trailing CR and LF bytes. -/
def rstripCrLf (l : List Nat) : List Nat :=
  (l.reverse.dropWhile (fun b => b == 13 || b == 10)).reverse

/-- Python `line.split(b"\t")`: split at every tab, keeping empty fields. -/
def splitTab : List Nat → List (List Nat)
  | [] => [[]]
  | c :: cs =>
    if c == 9 then [] :: splitTab cs
    else
      match splitTab cs with
      | [] => [[c]]
      | f :: fs => (c :: f) :: fs

/-- `PacketParser.process_row`: parse one raw line into a record, or discard
it (`none`).  A record with `kind = response` is routed to the responses
table by the writer, otherwise to the requests table. -/
def process_row (gzipD : List Nat → Option (List Nat))
    (uriD : List Nat → List Nat) (line : List Nat) : Option RowRecord :=
  let stripped := rstripCrLf line
  if stripped.isEmpty then none
  else
    let row := splitTab stripped
    match parse_packet_data uriD row with
    | none => none
    | some pp =>
      if pp.full_request.isEmpty then none
      else
        let hb := extract_http_file_data gzipD pp.full_request
        some
          { kind := if (row.headD []).isEmpty then .request else .response
            frame_num := pp.frame_num
            header := hb.1
            file_data := hb.2
            time_epoch := pp.time_epoch
            request_in := pp.request_in
            full_uri := pp.full_uri }

/-! ## The store and its pairing query (FlowAnalyzer.generate_http_dict_pairs)

Rows carry exactly the columns of the two tables.  The ingest pipeline always
writes an integer `request_in` (`int(row[1]) if row[1] else frame_num`), so
the column is modelled as `Int`, never NULL. -/

structure ReqRow where
  frame_num : Int
  header : List Nat
  file_data : List Nat
  full_uri : List Nat
  time_epoch : Rat
deriving DecidableEq

structure RespRow where
  frame_num : Int
  header : List Nat
  file_data : List Nat
  time_epoch : Rat
  request_in : Int
deriving DecidableEq

structure Store where
  requests : List ReqRow
  responses : List RespRow
deriving DecidableEq

/-- An `HttpPair` as yielded by `generate_http_dict_pairs`. -/
structure HttpPairM where
  request : Option ReqRow
  response : Option RespRow
deriving DecidableEq

/-- Stable insertion used to model Python sorting (`sorted` and
`list.sort` are stable): `keep y x` decides that the already-placed `y`
stays in front of the incoming `x`. -/
def sInsert (keep : α → α → Bool) (x : α) : List α → List α
  | [] => [x]
  | y :: ys => if keep y x then y :: sInsert keep x ys else x :: y :: ys

/-- Stable sort: fold the list left to right, inserting each element after
every earlier element the comparator keeps in front of it. -/
def sSort (keep : α → α → Bool) (l : List α) : List α :=
  l.foldl (fun acc x => sInsert keep x acc) []

/-- `ORDER BY req.frame_num ASC` of the pairing query. -/
def sortReqs (l : List ReqRow) : List ReqRow :=
  sSort (fun y x => y.frame_num ≤ x.frame_num) l

/-- First pass: `requests LEFT JOIN responses ON req.frame_num =
resp.request_in ORDER BY req.frame_num ASC` — one output row per matching
response, or a single row with a NULL response side when nothing matches. -/
def joinPairs (st : Store) : List HttpPairM :=
  (sortReqs st.requests).flatMap (fun rq =>
    let ms := st.responses.filter (fun rs => rs.request_in == rq.frame_num)
    if ms.isEmpty then [⟨some rq, none⟩]
    else ms.map (fun rs => ⟨some rq, some rs⟩))

/-- Second pass: `SELECT ... FROM responses WHERE request_in NOT IN
(SELECT frame_num FROM requests)`. -/
def orphanResponses (st : Store) : List RespRow :=
  st.responses.filter (fun rs =>
    st.requests.all (fun rq => !(rq.frame_num == rs.request_in)))

/-- `FlowAnalyzer.generate_http_dict_pairs`: the join pass followed by the
orphan pass. -/
def generate_http_dict_pairs (st : Store) : List HttpPairM :=
  joinPairs st ++ (orphanResponses st).map (fun rs => ⟨none, some rs⟩)

/-! ## FlowAnalyzer._is_cache_valid -/

/-- The single `meta_info` row. -/
structure MetaRow where
  filter : String
  pcap_mtime : Rat
  pcap_size : Nat
deriving DecidableEq

/-- What `_is_cache_valid` observes of the world: whether the store file
exists and its size (`os.path.exists` / `os.path.getsize` on the db),
the capture file's stat data (`.error` when `os.path.getmtime`/`getsize`
raises), and the metadata query (`.error` when sqlite raises, `.ok none`
when `fetchone` finds no row). -/
structure CacheFs where
  db_exists : Bool
  db_size : Nat
  pcap_stat : Except Unit (Rat × Nat)
  meta_query : Except Unit (Option MetaRow)

/-- `FlowAnalyzer._is_cache_valid`.  Every failure path of the source
(missing or empty store, failed stat, sqlite error, missing metadata row)
returns `false`; the function never raises. -/
def is_cache_valid (fs : CacheFs) (current_filter : String) : Bool :=
  if !fs.db_exists || fs.db_size == 0 then false
  else
    match fs.pcap_stat with
    | .error _ => false
    | .ok (current_mtime, current_size) =>
      match fs.meta_query with
      | .error _ => false
      | .ok none => false
      | .ok (some m) =>
        m.filter == current_filter && m.pcap_size == current_size
          && |m.pcap_mtime - current_mtime| < (1 : Rat) / 10

/-! ## FlowAnalyzer._stream_tshark_to_db — failure control flow

The try/except/finally at the end of `_stream_tshark_to_db` (lines 283-346)
observed from outside: `bodyErr` is the exception, if any, raised inside the
`try` block (streaming or finalizing; the metadata row is the last write of
the block, so it is committed exactly when the block completes), and `alive`
is whether the tshark subprocess is still running when the handler runs
(`process.poll() is None`). -/

structure StreamObs where
  /-- whether `process.terminate()` was called. -/
  terminated : Bool
  /-- the exception the caller of `_stream_tshark_to_db` sees, if any. -/
  raised : Option String
  /-- whether the `meta_info` row was committed. -/
  metaWritten : Bool
deriving DecidableEq

/-- `FlowAnalyzer._stream_tshark_to_db`, failure behavior: the `except
Exception` clause logs the error and terminates the still-running subprocess
but does not re-raise, and the `finally` clause also only terminates; in
both cases the function returns normally. -/
def stream_tshark_to_db (bodyErr : Option String) (alive : Bool) : StreamObs :=
  match bodyErr with
  | none => { terminated := alive, raised := none, metaWritten := true }
  | some _ => { terminated := alive, raised := none, metaWritten := false }

/-- `FlowAnalyzer.get_json_data` after a cache miss: it calls
`_stream_tshark_to_db` and then returns `db_path`; it re-raises whatever
that call raises (which, per `stream_tshark_to_db`, is nothing). -/
def get_json_data_rebuild (bodyErr : Option String) (alive : Bool) :
    Except String String :=
  match (stream_tshark_to_db bodyErr alive).raised with
  | some e => .error e
  | none => .ok "db_path"

/-! ## PcapSplitter -/

/-- The (src, dst, sport, dport) tuple dpkt exposes for an IPv4+TCP packet.
Addresses are 4-byte strings, here byte lists; Python compares them
lexicographically inside the tuple comparison. -/
structure FlowTuple where
  src : List Nat
  dst : List Nat
  sport : Nat
  dport : Nat
deriving DecidableEq

/-- Lexicographic strict order on byte strings (Python `bytes <`). -/
def bytesLt : List Nat → List Nat → Bool
  | [], [] => false
  | [], _ :: _ => true
  | _ :: _, [] => false
  | a :: as, b :: bs =>
    if a < b then true else if b < a then false else bytesLt as bs

/-- Python tuple `<` on the 4-tuples used as flow keys. -/
def tupLt (a b : FlowTuple) : Bool :=
  if bytesLt a.src b.src then true
  else if bytesLt b.src a.src then false
  else if bytesLt a.dst b.dst then true
  else if bytesLt b.dst a.dst then false
  else if a.sport < b.sport then true
  else if b.sport < a.sport then false
  else decide (a.dport < b.dport)

/-- `PcapSplitter.get_stream_key`: canonicalize the bidirectional flow to
the smaller of the two directed tuples. -/
def get_stream_key (t : FlowTuple) : FlowTuple :=
  let k2 : FlowTuple := ⟨t.dst, t.src, t.dport, t.sport⟩
  if tupLt t k2 then t else k2

/-- A captured packet: timestamp, raw frame bytes, and the outcome of the
dpkt Ethernet/IPv4/TCP parse of `buf` (an external library; `none` models a
non-IPv4, non-TCP or unparseable packet, all skipped by the source's
`continue`/`except Exception: continue`). -/
structure Packet where
  ts : Rat
  buf : List Nat
  parsed : Option FlowTuple
deriving DecidableEq

/-- The canonical flow key of a packet, when it qualifies (IPv4+TCP). -/
def packetKey (p : Packet) : Option FlowTuple :=
  p.parsed.map get_stream_key

/-- `streams[key].append((ts, buf))` on an insertion-ordered dict modelled
as an association list. -/
def appendAssoc (k : FlowTuple) (p : Packet) :
    List (FlowTuple × List Packet) → List (FlowTuple × List Packet)
  | [] => [(k, [p])]
  | (k', ps) :: rest =>
    if k' = k then (k', ps ++ [p]) :: rest else (k', ps) :: appendAssoc k p rest

/-- Pass 1 of `split`: group the qualifying packets by canonical flow key,
in first-seen key order, preserving packet order within each flow. -/
def groupStreams (ps : List Packet) : List (FlowTuple × List Packet) :=
  ps.foldl (fun acc p =>
    match packetKey p with
    | none => acc
    | some k => appendAssoc k p acc) []

/-- The `stream_sizes` dict: per flow, the sum of `len(buf)` over its
packets.  The source maintains it incrementally next to `streams`; the two
always agree, so it is derived here. -/
def streamSizes (st : List (FlowTuple × List Packet)) : List (FlowTuple × Nat) :=
  st.map (fun e => (e.1, (e.2.map (fun p => p.buf.length)).sum))

/-- One bucket of the greedy LPT partition: running byte total, batch index,
assigned flow keys. -/
structure Bucket where
  size : Nat
  idx : Nat
  keys : List FlowTuple
deriving DecidableEq

/-- Pass 2 of `split`: for each flow in the given order, re-sort the buckets
by running size (stably, as `list.sort` is) and add the flow to the first,
i.e. currently smallest, bucket.  When the bucket list is empty the source
raises `IndexError` (`buckets[0]` with `num_chunks = 0`); the theorems below
only use a positive chunk count, where this cannot happen. -/
def assignLPT (flows : List (FlowTuple × Nat)) (buckets : List Bucket) :
    List Bucket :=
  flows.foldl (fun bs f =>
    match sSort (fun y x => y.size ≤ x.size) bs with
    | [] => []
    | b :: rest => { b with size := b.size + f.2, keys := b.keys ++ [f.1] } :: rest)
    buckets

/-- `streams[key]` at writing time (the key is always present). -/
def lookupStream : List (FlowTuple × List Packet) → FlowTuple → List Packet
  | [], _ => []
  | (k', ps) :: rest, k => if k' = k then ps else lookupStream rest k

/-- Observable outcome of `PcapSplitter.split`: the original path unsplit,
an empty list, or one output file per bucket, each file being the packets of
its flows in assignment order. -/
inductive SplitResult where
  | original
  | empty
  | files (contents : List (List Packet))
deriving DecidableEq

/-- `PcapSplitter.split`.  `fileSize` is the capture size in bytes; the
source compares `size / (1024*1024) < threshold_mb` in floating point, and
since division by `2^20` is exact in binary floating point this is the
integer comparison `fileSize < thresholdMb * 1048576`. -/
def split (fileSize : Nat) (thresholdMb : Nat) (defaultChunks : Nat)
    (ps : List Packet) : SplitResult :=
  if fileSize < thresholdMb * 1048576 then .original
  else
    let streams := groupStreams ps
    if streams.isEmpty then .empty
    else
      let numChunks := min defaultChunks streams.length
      let sortedFlows := sSort (fun y x => x.2 ≤ y.2) (streamSizes streams)
      let buckets0 := (List.range numChunks).map (fun i => Bucket.mk 0 i [])
      let final := sSort (fun y x => y.idx ≤ x.idx) (assignLPT sortedFlows buckets0)
      .files (final.map (fun bk => (bk.keys.map (lookupStream streams)).flatten))

/-- The flow-to-bucket assignment `split` computes, as (batch index, keys)
pairs — the part of the result C8 calls "the assignment of flows to
buckets". -/
def bucketAssignment (defaultChunks : Nat) (ps : List Packet) :
    List (Nat × List FlowTuple) :=
  let streams := groupStreams ps
  let numChunks := min defaultChunks streams.length
  let sortedFlows := sSort (fun y x => x.2 ≤ y.2) (streamSizes streams)
  let buckets0 := (List.range numChunks).map (fun i => Bucket.mk 0 i [])
  (sSort (fun y x => y.idx ≤ x.idx) (assignLPT sortedFlows buckets0)).map
    (fun bk => (bk.idx, bk.keys))

/-- The multiset of packets written across all output files. -/
def outputPackets : SplitResult → List Packet
  | .original => []
  | .empty => []
  | .files cs => cs.flatten

/-! # Theorems -/

/-! ## Generic list lemmas -/

theorem perm_flatten_of_perm {α : Type} {l₁ l₂ : List (List α)} (h : l₁.Perm l₂) :
    l₁.flatten.Perm l₂.flatten := by
  induction h with
  | nil => rfl
  | cons x _ ih => simpa using ih.append_left x
  | swap x y l =>
    simp only [List.flatten_cons, ← List.append_assoc]
    exact (List.perm_append_comm).append_right _
  | trans _ _ ih₁ ih₂ => exact ih₁.trans ih₂

theorem sInsert_perm {α : Type} (keep : α → α → Bool) (x : α) (l : List α) :
    (sInsert keep x l).Perm (x :: l) := by
  induction l with
  | nil => rfl
  | cons y ys ih =>
    by_cases h : keep y x = true
    · simpa [sInsert, h] using ((ih.cons y).trans (List.Perm.swap x y ys))
    · simp [sInsert, h]

theorem sSort_perm {α : Type} (keep : α → α → Bool) (l : List α) :
    (sSort keep l).Perm l := by
  suffices h : ∀ (l acc : List α), (l.foldl (fun a x => sInsert keep x a) acc).Perm (acc ++ l) by
    simpa using h l []
  intro l
  induction l with
  | nil => simp
  | cons x xs ih =>
    intro acc
    have h1 : ((x :: xs).foldl (fun a y => sInsert keep y a) acc)
        = xs.foldl (fun a y => sInsert keep y a) (sInsert keep x acc) := rfl
    rw [h1]
    refine (ih _).trans ?_
    refine ((sInsert_perm keep x acc).append_right xs).trans ?_
    simpa using List.perm_middle.symm

theorem sSort_length {α : Type} (keep : α → α → Bool) (l : List α) :
    (sSort keep l).length = l.length :=
  (sSort_perm keep l).length_eq

/-! ## Hexadecimal printing/parsing round trip (for the chunked claim) -/

theorem hexVal_hexDigitByte (d : Nat) (h : d < 16) :
    hexVal (hexDigitByte d) = some d := by
  by_cases hd : d < 10
  · have h1 : hexDigitByte d = 48 + d := by simp [hexDigitByte, hd]
    rw [h1]
    have c1 : (48 ≤ 48 + d ∧ 48 + d ≤ 57) := by omega
    simp [hexVal, c1.1, c1.2]
  · have h1 : hexDigitByte d = 87 + d := by simp [hexDigitByte, hd]
    rw [h1]
    have c1 : ¬ (87 + d ≤ 57) := by omega
    have c2 : (97 ≤ 87 + d ∧ 87 + d ≤ 102) := by omega
    simp [hexVal, c1, c2.1, c2.2]

theorem hexDigitByte_range {d : Nat} (h : d < 16) :
    48 ≤ hexDigitByte d ∧ hexDigitByte d ≤ 102
      ∧ (hexDigitByte d ≤ 57 ∨ 97 ≤ hexDigitByte d) := by
  by_cases hd : d < 10
  · have h1 : hexDigitByte d = 48 + d := by simp [hexDigitByte, hd]
    rw [h1]; omega
  · have h1 : hexDigitByte d = 87 + d := by simp [hexDigitByte, hd]
    rw [h1]; omega

theorem toHexGo_mem {f n c : Nat} (h : c ∈ toHexGo f n) :
    ∃ d, d < 16 ∧ c = hexDigitByte d := by
  induction f generalizing n with
  | zero =>
    simp only [toHexGo, List.mem_singleton] at h
    exact ⟨n % 16, Nat.mod_lt _ (by norm_num), h⟩
  | succ f ih =>
    by_cases hn : n < 16
    · simp only [toHexGo, if_pos hn, List.mem_singleton] at h
      exact ⟨n, hn, h⟩
    · simp only [toHexGo, if_neg hn, List.mem_append, List.mem_singleton] at h
      rcases h with h | h
      · exact ih h
      · exact ⟨n % 16, Nat.mod_lt _ (by norm_num), h⟩

theorem toHexBytes_range {n c : Nat} (h : c ∈ toHexBytes n) :
    48 ≤ c ∧ c ≤ 102 ∧ (c ≤ 57 ∨ 97 ≤ c) := by
  obtain ⟨d, hd, rfl⟩ := toHexGo_mem h
  exact hexDigitByte_range hd

theorem toHexGo_ne_nil (f n : Nat) : toHexGo f n ≠ [] := by
  cases f with
  | zero => simp [toHexGo]
  | succ f => by_cases hn : n < 16 <;> simp [toHexGo, hn]

theorem hexFoldAux_append (acc : Nat) (xs ys : List Nat) :
    hexFoldAux acc (xs ++ ys) =
      match hexFoldAux acc xs with
      | none => none
      | some a => hexFoldAux a ys := by
  induction xs generalizing acc with
  | nil => simp [hexFoldAux]
  | cons c cs ih =>
    simp only [List.cons_append, hexFoldAux]
    cases hexVal c with
    | none => rfl
    | some d => exact ih _

theorem hexFoldAux_toHexGo (f : Nat) :
    ∀ n acc : Nat, n < 16 ^ (f + 1) →
      hexFoldAux acc (toHexGo f n) = some (acc * 16 ^ (toHexGo f n).length + n) := by
  induction f with
  | zero =>
    intro n acc h
    have hn : n < 16 := by simpa using h
    rw [toHexGo, Nat.mod_eq_of_lt hn]
    simp [hexFoldAux, hexVal_hexDigitByte n hn]
  | succ f ih =>
    intro n acc h
    by_cases hn : n < 16
    · simp [toHexGo, if_pos hn, hexFoldAux, hexVal_hexDigitByte _ hn]
    · have hdiv : n / 16 < 16 ^ (f + 1) := by
        rw [Nat.div_lt_iff_lt_mul (by norm_num)]
        calc n < 16 ^ (f + 1 + 1) := h
          _ = 16 ^ (f + 1) * 16 := by ring
      rw [toHexGo, if_neg hn, hexFoldAux_append, ih _ acc hdiv]
      simp only [hexFoldAux, hexVal_hexDigitByte _ (Nat.mod_lt _ (by norm_num)),
        List.length_append, List.length_singleton]
      congr 1
      have hmod : 16 * (n / 16) + n % 16 = n := Nat.div_add_mod n 16
      generalize (toHexGo f (n / 16)).length = L
      ring_nf
      omega

theorem hexFold_toHexBytes (n : Nat) : hexFold (toHexBytes n) = some n := by
  have hb : n < 16 ^ (n + 1) :=
    lt_of_lt_of_le (Nat.lt_pow_self (by norm_num) n)
      (Nat.pow_le_pow_right (by norm_num) (by omega))
  have haux := hexFoldAux_toHexGo n n 0 hb
  have hne := toHexGo_ne_nil n n
  unfold toHexBytes at *
  rcases hl : toHexGo n n with _ | ⟨c, cs⟩
  · exact absurd hl hne
  · rw [hl] at haux
    simpa [hexFold] using haux

theorem remUnderscoresGo_no95 {l : List Nat} (h : ∀ c ∈ l, c ≠ 95) :
    ∀ flag, remUnderscoresGo flag l = some l := by
  induction l with
  | nil => intro flag; rfl
  | cons c cs ih =>
    intro flag
    have hc : (c == 95) = false := by
      simpa using h c (by simp)
    have hcs : ∀ x ∈ cs, x ≠ 95 := fun x hx => h x (by simp [hx])
    simp [remUnderscoresGo, hc, ih hcs]

/-- On a non-empty all-hex-digit byte string, `parseHexInt` is plain digit
accumulation: no sign, no prefix, no underscores can occur. -/
theorem parseHexInt_digits {l : List Nat}
    (hne : l ≠ []) (h : ∀ c ∈ l, 48 ≤ c ∧ c ≤ 102 ∧ (c ≤ 57 ∨ 97 ≤ c)) :
    parseHexInt l = (hexFold l).map (fun v => (v : Int)) := by
  rcases l with _ | ⟨c, rest⟩
  · exact absurd rfl hne
  · obtain ⟨hcA, hcB, hcC⟩ := h c (by simp)
    have hc45 : (c == 45) = false := by
      simp only [beq_eq_false_iff_ne, ne_eq]
      omega
    have hc43 : (c == 43) = false := by
      simp only [beq_eq_false_iff_ne, ne_eq]
      omega
    have h95 : ∀ x ∈ c :: rest, x ≠ 95 := by
      intro x hx
      obtain ⟨h1, h2, h3⟩ := h x hx
      omega
    have hrem := remUnderscoresGo_no95 h95 true
    rcases rest with _ | ⟨b, r⟩
    · simp only [parseHexInt, hc45, hc43, Bool.or_self, Bool.false_eq_true,
        if_false, remUnderscores, hrem]
      cases hf : hexFold [c] with
      | none => simp
      | some v => simp
    · obtain ⟨hbA, hbB, hbC⟩ := h b (by simp)
      have hb120 : (b == 120) = false := by
        simp only [beq_eq_false_iff_ne, ne_eq]
        omega
      have hb88 : (b == 88) = false := by
        simp only [beq_eq_false_iff_ne, ne_eq]
        omega
      simp only [parseHexInt, hc45, hc43, hb120, hb88, Bool.or_self,
        Bool.false_eq_true, if_false, Bool.and_false, remUnderscores, hrem]
      cases hf : hexFold (c :: b :: r) with
      | none => simp
      | some v => simp

/-! ## Symbolic execution of the chunked decoder on an encoded body -/

theorem isWsByte_false_of_ge {c : Nat} (h : 48 ≤ c) : isWsByte c = false := by
  simp only [isWsByte, Bool.or_eq_false_iff, beq_eq_false_iff_ne, ne_eq]
  omega

theorem dropWhile_all_false {p : Nat → Bool} {l : List Nat}
    (h : ∀ c ∈ l, p c = false) : l.dropWhile p = l := by
  induction l with
  | nil => rfl
  | cons c cs ih =>
    rw [List.dropWhile_cons, h c (by simp)]
    simp [ih fun x hx => h x (by simp [hx])]

theorem stripBytes_snoc13 {l : List Nat} (hne : l ≠ [])
    (h : ∀ c ∈ l, isWsByte c = false) : stripBytes (l ++ [13]) = l := by
  rcases l with _ | ⟨c, cs⟩
  · exact absurd rfl hne
  · have s1 : ((c :: cs) ++ [13]).dropWhile isWsByte = (c :: cs) ++ [13] := by
      rw [List.cons_append, List.dropWhile_cons, h c (by simp)]
      simp
    have s3 : ((c :: cs).reverse).dropWhile isWsByte = (c :: cs).reverse :=
      dropWhile_all_false fun x hx => h x (List.mem_reverse.mp hx)
    unfold stripBytes
    rw [s1]
    have s2 : (c :: (cs ++ [13])).reverse = 13 :: (c :: cs).reverse := by simp
    rw [List.cons_append, s2, List.dropWhile_cons, show isWsByte 13 = true from rfl]
    simp only [if_true, s3, List.reverse_reverse]

theorem findNl_append {l1 l2 : List Nat} (h : ∀ c ∈ l1, (c == 10) = false) :
    findNl (l1 ++ l2) = (findNl l2).map (l1.length + ·) := by
  induction l1 with
  | nil => cases hf : findNl l2 <;> simp [hf]
  | cons c cs ih =>
    rw [List.cons_append, findNl, h c (by simp)]
    rw [if_neg (by simp)]
    rw [ih fun x hx => h x (by simp [hx])]
    cases hf : findNl l2 with
    | none => simp [hf]
    | some i =>
      simp [hf]
      omega

theorem dechunkGo_succ (f : Nat) (c : Nat) (cs : List Nat) :
    dechunkGo (f + 1) (c :: cs) =
      match findNl (c :: cs) with
      | none => .error .noNewline
      | some i =>
        let sizeLine := stripBytes ((c :: cs).take i)
        let rest := (c :: cs).drop (i + 1)
        if sizeLine.isEmpty then dechunkGo f rest
        else
          match parseHexInt sizeLine with
          | none => .error .badSize
          | some sz =>
            if sz < 0 then .error .negSize
            else if sz == 0 then .ok []
            else
              if rest.length < sz.toNat then .ok [rest]
              else
                match dechunkGo f (skipCrLf (rest.drop sz.toNat)) with
                | .ok cs2 => .ok (rest.take sz.toNat :: cs2)
                | .error e => .error e := rfl

theorem dechunkGo_zero_term (f : Nat) :
    dechunkGo (f + 1) [48, 13, 10, 13, 10] = .ok [] := rfl

theorem toHexBytes_ne_nil (n : Nat) : toHexBytes n ≠ [] :=
  toHexGo_ne_nil n n

/-- Core of the round trip: on the single-chunk encoding of a non-empty body,
the decoder loop returns that body as its single chunk. -/
theorem dechunkGo_chunk_encode {b : List Nat} (hbne : b ≠ []) :
    dechunkGo ((chunk_encode b).length + 1) (chunk_encode b) = .ok [b] := by
  have hbE : b.isEmpty = false := by
    rcases b with _ | _
    · exact absurd rfl hbne
    · rfl
  have hbpos : 0 < b.length := List.length_pos.mpr hbne
  have hHne : toHexBytes b.length ≠ [] := toHexBytes_ne_nil _
  have hHrange : ∀ c ∈ toHexBytes b.length, 48 ≤ c ∧ c ≤ 102 ∧ (c ≤ 57 ∨ 97 ≤ c) :=
    fun _ hc => toHexBytes_range hc
  have e1 : chunk_encode b
      = (toHexBytes b.length ++ [13]) ++ (10 :: (b ++ [13, 10, 48, 13, 10, 13, 10])) := by
    simp [chunk_encode, hbE, List.append_assoc]
  have hnotNl : ∀ c ∈ toHexBytes b.length ++ [13], (c == 10) = false := by
    intro c hc
    simp only [beq_eq_false_iff_ne, ne_eq]
    rcases List.mem_append.mp hc with hc' | hc'
    · have := hHrange c hc'
      omega
    · simp only [List.mem_singleton] at hc'
      omega
  have hfind : findNl (chunk_encode b) = some ((toHexBytes b.length).length + 1) := by
    rw [e1, findNl_append hnotNl]
    simp [findNl]
  have htake : (chunk_encode b).take ((toHexBytes b.length).length + 1)
      = toHexBytes b.length ++ [13] := by
    rw [e1]
    have hl : (toHexBytes b.length).length + 1 = (toHexBytes b.length ++ [13]).length := by simp
    rw [hl, List.take_left]
  have hstrip : stripBytes (toHexBytes b.length ++ [13]) = toHexBytes b.length :=
    stripBytes_snoc13 hHne fun c hc => isWsByte_false_of_ge (hHrange c hc).1
  have hparse : parseHexInt (toHexBytes b.length) = some (b.length : Int) := by
    rw [parseHexInt_digits hHne hHrange, hexFold_toHexBytes]
    rfl
  have e2 : chunk_encode b
      = (toHexBytes b.length ++ [13, 10]) ++ (b ++ [13, 10, 48, 13, 10, 13, 10]) := by
    simp [chunk_encode, hbE, List.append_assoc]
  have hdrop : (chunk_encode b).drop ((toHexBytes b.length).length + 1 + 1)
      = b ++ [13, 10, 48, 13, 10, 13, 10] := by
    rw [e2]
    have hl : (toHexBytes b.length).length + 1 + 1
        = (toHexBytes b.length ++ [13, 10]).length := by simp
    rw [hl, List.drop_left]
  have hs0ne : chunk_encode b ≠ [] := by
    rw [e1]
    simp
  obtain ⟨c0, cs0, hs0⟩ := List.exists_cons_of_ne_nil hs0ne
  rw [hs0, dechunkGo_succ, ← hs0, hfind]
  simp only [htake, hstrip, hparse]
  rw [if_neg (by simpa using hHne)]
  have hn0 : ¬ ((b.length : Int) < 0) := by omega
  have hne0 : (((b.length : Int)) == 0) = false := by
    simp only [beq_eq_false_iff_ne, ne_eq]
    omega
  rw [if_neg hn0, hne0]
  have htoNat : ((b.length : Int)).toNat = b.length := by simp
  simp only [Bool.false_eq_true, if_false, htoNat, hdrop]
  have hlen : (b ++ [13, 10, 48, 13, 10, 13, 10]).length = b.length + 7 := by simp
  rw [if_neg (by rw [hlen]; omega)]
  have hdrop2 : (b ++ [13, 10, 48, 13, 10, 13, 10]).drop b.length
      = [13, 10, 48, 13, 10, 13, 10] := List.drop_left b _
  have hskip : skipCrLf [13, 10, 48, 13, 10, 13, 10] = [48, 13, 10, 13, 10] := rfl
  rw [hdrop2, hskip]
  -- the fuel left inside the loop body is the tail length plus one
  have hg : (chunk_encode b).length = cs0.length + 1 := by
    rw [hs0]
    simp
  rw [hg, dechunkGo_zero_term, List.take_left b _]

/-- The chunked round trip: decoding a single-chunk encoding recovers the
body, for every byte string. -/
theorem dechunk_chunk_encode (b : List Nat) :
    dechunk_http_response (chunk_encode b) = .ok b := by
  rcases hb : b with _ | ⟨x, xs⟩
  · rfl
  · rw [dechunk_http_response, dechunkGo_chunk_encode (by simp)]
    simp [Except.map]

/-! ## Claim C5 -/

/-- Claim C5: decoding a valid chunked encoding returns the original body —
`dechunk (chunk_encode body) = body` for every byte string including the
empty one — and in particular the decoder maps `"5\r\nHello\r\n0\r\n\r\n"`
to `"Hello"`. -/
theorem C5_chunked_round_trip :
    (∀ b : List Nat, dechunk_http_response (chunk_encode b) = .ok b)
      ∧ dechunk_http_response
          [53, 13, 10, 72, 101, 108, 108, 111, 13, 10, 48, 13, 10, 13, 10]
        = .ok [72, 101, 108, 108, 111] :=
  ⟨dechunk_chunk_encode, rfl⟩

/-! ## Claim C6 -/

/-- Claim C6: when the chunked decode of the body part fails — a size line
that does not parse as hexadecimal, or no terminating newline —
`extract_http_file_data` abandons the chunked decoding and uses the original
body bytes unmodified (they go unchanged into the independent gzip stage,
and are returned outright whenever they do not begin with the gzip magic),
and no error propagates: the function still returns a header/body pair. -/
theorem C6_chunked_failure_keeps_body
    (gzipD : List Nat → Option (List Nat)) (fr raw : List Nat) (e : DechunkErr)
    (hhex : unhexlify fr = some raw)
    (herr : dechunk_http_response (split_http_headers raw).2 = .error e)
    (hkind : e = .noNewline ∨ e = .badSize) :
    extract_http_file_data gzipD fr
        = ((split_http_headers raw).1, gzipStage gzipD (split_http_headers raw).2)
      ∧ ((split_http_headers raw).2.take 2 ≠ [31, 139] →
          extract_http_file_data gzipD fr
            = ((split_http_headers raw).1, (split_http_headers raw).2)) := by
  have hfrne : fr.isEmpty = false := by
    rcases fr with _ | ⟨c, cs⟩
    · exfalso
      rw [show unhexlify [] = some [] from rfl] at hhex
      cases hhex
      rw [show split_http_headers [] = ([], []) from rfl] at herr
      cases herr
    · rfl
  have hmain : extract_http_file_data gzipD fr
      = ((split_http_headers raw).1, gzipStage gzipD (split_http_headers raw).2) := by
    unfold extract_http_file_data
    rw [hfrne]
    simp only [Bool.false_eq_true, if_false, hhex]
    unfold chunkedStage
    rw [herr]
  refine ⟨hmain, fun hmagic => ?_⟩
  rw [hmain]
  unfold gzipStage
  rw [if_neg (by simpa using hmagic)]

/-- Witness for C6 at the payload hex `"0d0a0d0a7a7a0a"` (raw bytes
`"\r\n\r\nzz\n"`): its body `"zz\n"` has the unparsable size line `"zz"`. -/
theorem C6_witness :
    unhexlify [48, 100, 48, 97, 48, 100, 48, 97, 55, 97, 55, 97, 48, 97]
        = some [13, 10, 13, 10, 122, 122, 10]
      ∧ dechunk_http_response
          (split_http_headers [13, 10, 13, 10, 122, 122, 10]).2 = .error .badSize
      ∧ extract_http_file_data (fun _ => none)
          [48, 100, 48, 97, 48, 100, 48, 97, 55, 97, 55, 97, 48, 97]
        = ((split_http_headers [13, 10, 13, 10, 122, 122, 10]).1,
           (split_http_headers [13, 10, 13, 10, 122, 122, 10]).2) :=
  ⟨rfl, rfl,
    (C6_chunked_failure_keeps_body (fun _ => none)
      [48, 100, 48, 97, 48, 100, 48, 97, 55, 97, 55, 97, 48, 97]
      [13, 10, 13, 10, 122, 122, 10] .badSize rfl rfl
      (Or.inr rfl)).2 (by decide)⟩

/-! ## Claim C2 -/

/-- Claim C2: `_is_cache_valid` returns false when the store file is absent
or empty, or the capture stat or metadata read fails, or the metadata row is
absent (never raising); otherwise it returns true exactly when the cached
filter equals the current filter, the cached size equals the current size,
and the mtimes differ by strictly less than 0.1 seconds. -/
theorem C2_cache_validity (fs : CacheFs) (f : String) :
    is_cache_valid fs f = true ↔
      (fs.db_exists = true ∧ fs.db_size ≠ 0
        ∧ ∃ mt sz m, fs.pcap_stat = .ok (mt, sz) ∧ fs.meta_query = .ok (some m)
            ∧ m.filter = f ∧ m.pcap_size = sz
            ∧ |m.pcap_mtime - mt| < (1 : Rat) / 10) := by
  rcases fs with ⟨dbe, dbs, pst, mq⟩
  unfold is_cache_valid
  cases dbe with
  | false => simp
  | true =>
    by_cases hdbs : dbs = 0
    · simp [hdbs]
    · rcases pst with eS | ⟨mt, sz⟩
      · simp [hdbs]
      · rcases mq with eM | om
        · simp [hdbs]
        · rcases om with _ | m
          · simp [hdbs]
          · simp only [Bool.not_true, Bool.false_or, beq_iff_eq]
            constructor
            · intro h
              rw [if_neg (by simpa using hdbs)] at h
              simp only [Bool.and_eq_true, beq_iff_eq, decide_eq_true_eq] at h
              exact ⟨by trivial, hdbs, mt, sz, m, rfl, rfl, h.1.1, h.1.2, h.2⟩
            · rintro ⟨-, -, mt', sz', m', hok, hmq, hf, hsz, hmt⟩
              cases hok
              cases hmq
              rw [if_neg (by simpa using hdbs)]
              simp only [Bool.and_eq_true, beq_iff_eq, decide_eq_true_eq]
              exact ⟨⟨hf, hsz⟩, hmt⟩

/-! ## Claim C4 -/

/-- Counterexample to claim C4: when the streaming/finalizing body raises,
`_stream_tshark_to_db` terminates the subprocess but swallows the exception
(nothing is raised to the caller), and `get_json_data` then returns the db
path even though the metadata row was never written. -/
theorem C4_counterexample :
    (stream_tshark_to_db (some "sqlite3.OperationalError") true).raised = none
      ∧ (stream_tshark_to_db (some "sqlite3.OperationalError") true).metaWritten = false
      ∧ get_json_data_rebuild (some "sqlite3.OperationalError") true = .ok "db_path" :=
  ⟨rfl, rfl, rfl⟩

/-- Claim C4 as amended: on every exception during streaming or finalizing,
the pipeline terminates the subprocess exactly when it is still running,
logs the error without re-raising it, and leaves the metadata row unwritten;
the caller of `get_json_data` receives the db path of that unfinalized
store. -/
theorem C4_error_swallowed (e : String) (alive : Bool) :
    stream_tshark_to_db (some e) alive
        = { terminated := alive, raised := none, metaWritten := false }
      ∧ get_json_data_rebuild (some e) alive = .ok "db_path" :=
  ⟨rfl, rfl⟩

/-! ## Claim C9 -/

/-- Counterexample to claim C9: a capture of exactly 10 MB with a 10 MB
threshold is not below the threshold (`size_mb < threshold_mb` is false), so
`split` does not return the original path — it proceeds to split. -/
theorem C9_counterexample :
    split (10 * 1048576) 10 3 [] ≠ .original := by
  decide

/-- Claim C9 as amended: for every capture file strictly smaller than the
threshold, `split` performs no splitting and returns the one-element list
holding the original path; a capture of exactly the threshold size is not
below the threshold and is split. -/
theorem C9_small_file_unsplit (fileSize thresholdMb defaultChunks : Nat)
    (ps : List Packet) (h : fileSize < thresholdMb * 1048576) :
    split fileSize thresholdMb defaultChunks ps = .original := by
  unfold split
  rw [if_pos h]

/-- Witness for the amended C9 at a 5-byte capture and a 10 MB threshold. -/
theorem C9_witness :
    5 < 10 * 1048576 ∧ split 5 10 3 [] = .original :=
  ⟨by decide, C9_small_file_unsplit 5 10 3 [] (by decide)⟩

/-! ## Claim C3 -/

/-- Counterexample to claim C3: the tab-separated line with fields
`("", "", "", "1", "zz", "1.5", "", "")` has the non-empty, non-hexadecimal
payload `"zz"`, yet `process_row` does not discard it — a record is kept
(and hence written to the requests table) with empty header and body
bytes. -/
theorem C3_counterexample :
    ∃ r, process_row (fun _ => none) (fun u => u)
          [9, 9, 9, 49, 9, 122, 122, 9, 49, 46, 53, 9, 9]
        = some r
      ∧ r.kind = .request ∧ r.frame_num = 1 ∧ r.header = [] ∧ r.file_data = [] :=
  ⟨_, rfl, rfl, rfl, rfl, rfl⟩

/-- Claim C3 as amended: for every ingest line that parses into a record
whose payload is non-empty but not valid hexadecimal, the hex-decode error
is swallowed and the record is written anyway, with empty header and body
bytes; ingestion continues with the next line. -/
theorem C3_bad_hex_record_kept
    (gzipD : List Nat → Option (List Nat)) (uriD : List Nat → List Nat)
    (line : List Nat) (pp : ParsedPacket)
    (hblank : (rstripCrLf line).isEmpty = false)
    (hp : parse_packet_data uriD (splitTab (rstripCrLf line)) = some pp)
    (hfrne : pp.full_request.isEmpty = false)
    (hhex : unhexlify pp.full_request = none) :
    process_row gzipD uriD line
      = some
          { kind := if ((splitTab (rstripCrLf line)).headD []).isEmpty
              then .request else .response
            frame_num := pp.frame_num
            header := []
            file_data := []
            time_epoch := pp.time_epoch
            request_in := pp.request_in
            full_uri := pp.full_uri } := by
  have hex : extract_http_file_data gzipD pp.full_request = ([], []) := by
    unfold extract_http_file_data
    rw [hfrne]
    simp only [Bool.false_eq_true, if_false, hhex]
  simp only [process_row, hblank, Bool.false_eq_true, if_false, hp, hfrne, hex]

/-- Witness for the amended C3 on the concrete bad-hex line. -/
theorem C3_witness :
    ((rstripCrLf [9, 9, 9, 49, 9, 122, 122, 9, 49, 46, 53, 9, 9]).isEmpty = false)
      ∧ ∃ pp, parse_packet_data (fun u => u)
              (splitTab (rstripCrLf [9, 9, 9, 49, 9, 122, 122, 9, 49, 46, 53, 9, 9]))
            = some pp
          ∧ pp.full_request.isEmpty = false
          ∧ unhexlify pp.full_request = none
          ∧ ∃ r, process_row (fun _ => none) (fun u => u)
                  [9, 9, 9, 49, 9, 122, 122, 9, 49, 46, 53, 9, 9]
                = some r
              ∧ r.header = [] ∧ r.file_data = [] := by
  refine ⟨rfl, ?_⟩
  refine ⟨_, rfl, rfl, rfl, ?_⟩
  have h := C3_bad_hex_record_kept (fun _ => none) (fun u => u)
    [9, 9, 9, 49, 9, 122, 122, 9, 49, 46, 53, 9, 9] _ rfl rfl rfl rfl
  exact ⟨_, h, rfl, rfl⟩

/-! ## Claim C1 -/

theorem flatMap_length_one {α β : Type} (f : α → List β) (l : List α)
    (h : ∀ a ∈ l, (f a).length = 1) : (l.flatMap f).length = l.length := by
  induction l with
  | nil => rfl
  | cons a as ih =>
    rw [List.flatMap_cons, List.length_append, h a (by simp),
      ih fun x hx => h x (by simp [hx])]
    simp [Nat.add_comm]

/-- Counterexample to claim C1: with one request (frame 1) and two responses
both carrying `request_in = 1`, the LEFT JOIN emits one pair per matching
response, so the query yields 2 pairs while the claim predicts
1 request + 0 orphans = 1. -/
theorem C1_counterexample :
    (generate_http_dict_pairs
        ⟨[⟨1, [], [], [], 0⟩], [⟨2, [], [], 0, 1⟩, ⟨3, [], [], 0, 1⟩]⟩).length
      ≠ (Store.mk [⟨1, [], [], [], 0⟩] [⟨2, [], [], 0, 1⟩, ⟨3, [], [], 0, 1⟩]).requests.length
        + (orphanResponses
            ⟨[⟨1, [], [], [], 0⟩], [⟨2, [], [], 0, 1⟩, ⟨3, [], [], 0, 1⟩]⟩).length := by
  decide

/-- Claim C1 as amended: whenever each request matches at most one response
(the 1:1 shape the spec assumes), the pairing query yields exactly one
HttpPair per request row — response absent when nothing matches — plus one
pair per orphan response, so the total is the request count plus the orphan
count.  A request matched by several responses yields one pair per match
instead. -/
theorem C1_pair_count (st : Store)
    (h : ∀ rq ∈ st.requests,
      (st.responses.filter (fun rs => rs.request_in == rq.frame_num)).length ≤ 1) :
    (generate_http_dict_pairs st).length
      = st.requests.length + (orphanResponses st).length := by
  unfold generate_http_dict_pairs
  rw [List.length_append, List.length_map]
  congr 1
  unfold joinPairs
  refine (flatMap_length_one _ _ ?_).trans ?_
  · intro rq hrq
    have hmem : rq ∈ st.requests := ((sSort_perm _ _).mem_iff).mp hrq
    have hle := h rq hmem
    cases hms : st.responses.filter (fun rs => rs.request_in == rq.frame_num) with
    | nil => simp [hms]
    | cons m rest =>
      rw [hms] at hle
      have hrest : rest = [] := by
        simp only [List.length_cons] at hle
        exact List.length_eq_zero.mp (by omega)
      subst hrest
      simp [hms]
  · exact sSort_length _ _

/-- Witness for the amended C1: one request, one matching response and one
orphan response give 2 = 1 + 1 pairs. -/
theorem C1_witness :
    (∀ rq ∈ (Store.mk [⟨1, [], [], [], 0⟩]
          [⟨2, [], [], 0, 1⟩, ⟨3, [], [], 0, 9⟩]).requests,
        ((Store.mk [⟨1, [], [], [], 0⟩]
            [⟨2, [], [], 0, 1⟩, ⟨3, [], [], 0, 9⟩]).responses.filter
          (fun rs => rs.request_in == rq.frame_num)).length ≤ 1)
      ∧ (generate_http_dict_pairs
            ⟨[⟨1, [], [], [], 0⟩], [⟨2, [], [], 0, 1⟩, ⟨3, [], [], 0, 9⟩]⟩).length
        = (Store.mk [⟨1, [], [], [], 0⟩]
              [⟨2, [], [], 0, 1⟩, ⟨3, [], [], 0, 9⟩]).requests.length
          + (orphanResponses
              ⟨[⟨1, [], [], [], 0⟩], [⟨2, [], [], 0, 1⟩, ⟨3, [], [], 0, 9⟩]⟩).length :=
  ⟨by decide, C1_pair_count _ (by decide)⟩

/-! ## Claim C10 -/

theorem groupStreams_all_none :
    ∀ (ps : List Packet) (acc : List (FlowTuple × List Packet)),
      (∀ p ∈ ps, packetKey p = none) →
      ps.foldl (fun acc p =>
        match packetKey p with
        | none => acc
        | some k => appendAssoc k p acc) acc = acc := by
  intro ps
  induction ps with
  | nil => intro acc _; rfl
  | cons p rest ih =>
    intro acc h
    rw [List.foldl_cons, h p (by simp)]
    exact ih acc fun x hx => h x (by simp [hx])

/-- Claim C10: for every capture at or above the size threshold containing
no IPv4+TCP packets, `split` returns the empty list — no output files, and
not the original path either. -/
theorem C10_no_tcp_returns_empty (fileSize thresholdMb defaultChunks : Nat)
    (ps : List Packet)
    (hsize : thresholdMb * 1048576 ≤ fileSize)
    (hnone : ∀ p ∈ ps, packetKey p = none) :
    split fileSize thresholdMb defaultChunks ps = .empty := by
  unfold split
  rw [if_neg (by omega)]
  have hg : groupStreams ps = [] := groupStreams_all_none ps [] hnone
  simp [hg]

/-- Witness for C10: a 10 MB capture holding one non-TCP packet. -/
theorem C10_witness :
    10 * 1048576 ≤ 10485760
      ∧ (∀ p ∈ [Packet.mk 0 [1, 2, 3] none], packetKey p = none)
      ∧ split 10485760 10 3 [Packet.mk 0 [1, 2, 3] none] = .empty :=
  ⟨by decide, by decide,
    C10_no_tcp_returns_empty 10485760 10 3 [Packet.mk 0 [1, 2, 3] none]
      (by decide) (by decide)⟩

/-! ## Claim C7 -/

theorem appendAssoc_values_perm (k : FlowTuple) (p : Packet)
    (st : List (FlowTuple × List Packet)) :
    (((appendAssoc k p st).map Prod.snd).flatten).Perm
      (((st.map Prod.snd).flatten) ++ [p]) := by
  induction st with
  | nil => simp [appendAssoc]
  | cons e rest ih =>
    rcases e with ⟨k', v⟩
    by_cases hk : k' = k
    · simp only [appendAssoc, if_pos hk, List.map_cons, List.flatten_cons]
      apply List.perm_iff_count.mpr
      intro a
      simp only [List.count_append]
      omega
    · simp only [appendAssoc, if_neg hk, List.map_cons, List.flatten_cons]
      refine (ih.append_left v).trans ?_
      rw [← List.append_assoc]

theorem groupStreams_values_aux :
    ∀ (ps : List Packet) (acc : List (FlowTuple × List Packet)),
      (((ps.foldl (fun acc p =>
            match packetKey p with
            | none => acc
            | some k => appendAssoc k p acc) acc).map Prod.snd).flatten).Perm
        (((acc.map Prod.snd).flatten) ++ ps.filter (fun p => (packetKey p).isSome)) := by
  intro ps
  induction ps with
  | nil =>
    intro acc
    simp
  | cons p rest ih =>
    intro acc
    rw [List.foldl_cons]
    cases hk : packetKey p with
    | none =>
      simp only [hk]
      refine (ih acc).trans ?_
      simp [List.filter_cons, hk]
    | some k =>
      simp only [hk]
      refine (ih (appendAssoc k p acc)).trans ?_
      refine ((appendAssoc_values_perm k p acc).append_right _).trans ?_
      rw [List.append_assoc]
      simp [List.filter_cons, hk]

theorem groupStreams_values_perm (ps : List Packet) :
    ((((groupStreams ps)).map Prod.snd).flatten).Perm
      (ps.filter (fun p => (packetKey p).isSome)) := by
  have h := groupStreams_values_aux ps []
  simpa [groupStreams] using h

theorem appendAssoc_keys (k : FlowTuple) (p : Packet)
    (st : List (FlowTuple × List Packet)) :
    (appendAssoc k p st).map Prod.fst
      = if k ∈ st.map Prod.fst then st.map Prod.fst
        else st.map Prod.fst ++ [k] := by
  induction st with
  | nil => simp [appendAssoc]
  | cons e rest ih =>
    rcases e with ⟨k', v⟩
    by_cases hk : k' = k
    · subst hk
      simp [appendAssoc]
    · have hne : ¬ (k = k') := fun hc => hk hc.symm
      simp only [appendAssoc, if_neg hk, List.map_cons, ih, List.mem_cons]
      by_cases hm : k ∈ rest.map Prod.fst
      · simp [hm, hne]
      · simp [hm, hne]

theorem groupStreams_keys_nodup_aux :
    ∀ (ps : List Packet) (acc : List (FlowTuple × List Packet)),
      ((acc.map Prod.fst).Nodup) →
      (((ps.foldl (fun acc p =>
          match packetKey p with
          | none => acc
          | some k => appendAssoc k p acc) acc)).map Prod.fst).Nodup := by
  intro ps
  induction ps with
  | nil => intro acc h; exact h
  | cons p rest ih =>
    intro acc h
    rw [List.foldl_cons]
    cases hk : packetKey p with
    | none =>
      simp only [hk]
      exact ih acc h
    | some k =>
      simp only [hk]
      refine ih _ ?_
      rw [appendAssoc_keys]
      by_cases hm : k ∈ acc.map Prod.fst
      · rw [if_pos hm]
        exact h
      · rw [if_neg hm]
        exact List.nodup_append.mpr ⟨h, List.nodup_singleton k, by simpa using hm⟩

theorem groupStreams_keys_nodup (ps : List Packet) :
    (((groupStreams ps)).map Prod.fst).Nodup := by
  have h := groupStreams_keys_nodup_aux ps [] (by simp)
  simpa [groupStreams] using h

theorem map_lookupStream_keys :
    ∀ (st : List (FlowTuple × List Packet)), ((st.map Prod.fst).Nodup) →
      (st.map Prod.fst).map (lookupStream st) = st.map Prod.snd := by
  intro st
  induction st with
  | nil => intro _; rfl
  | cons e rest ih =>
    rcases e with ⟨k, v⟩
    intro hnd
    have hkn : k ∉ rest.map Prod.fst := (List.nodup_cons.mp hnd).1
    have hnd' : (rest.map Prod.fst).Nodup := (List.nodup_cons.mp hnd).2
    simp only [List.map_cons]
    congr 1
    · simp [lookupStream]
    · have hpt : ∀ k' ∈ rest.map Prod.fst,
          lookupStream ((k, v) :: rest) k' = lookupStream rest k' := by
        intro k' hk'
        have hne : ¬ (k = k') := fun hc => hkn (hc ▸ hk')
        simp [lookupStream, hne]
      rw [List.map_congr_left hpt, ih hnd']

theorem assignLPT_keys_perm :
    ∀ (flows : List (FlowTuple × Nat)) (bs : List Bucket), bs ≠ [] →
      ((((assignLPT flows bs)).map Bucket.keys).flatten).Perm
        ((flows.map Prod.fst) ++ ((bs.map Bucket.keys).flatten)) := by
  intro flows
  induction flows with
  | nil =>
    intro bs _
    simp [assignLPT]
  | cons f fs ih =>
    intro bs hbs
    have hsne : sSort (fun y x => y.size ≤ x.size) bs ≠ [] := by
      intro hc
      apply hbs
      have hl := sSort_length (fun y x => y.size ≤ x.size) bs
      rw [hc] at hl
      exact List.length_eq_zero.mp hl.symm
    obtain ⟨b, rest, hbr⟩ := List.exists_cons_of_ne_nil hsne
    have hstep : assignLPT (f :: fs) bs
        = assignLPT fs
            ({ b with size := b.size + f.2, keys := b.keys ++ [f.1] } :: rest) := by
      simp only [assignLPT, List.foldl_cons, hbr]
    rw [hstep]
    refine (ih _ (by simp)).trans ?_
    have hFbs : (((bs.map Bucket.keys).flatten)).Perm
        (b.keys ++ ((rest.map Bucket.keys).flatten)) := by
      have hp : bs.Perm (b :: rest) := by
        have := (sSort_perm (fun y x => y.size ≤ x.size) bs).symm
        rwa [hbr] at this
      have hf := perm_flatten_of_perm (hp.map Bucket.keys)
      simpa using hf
    simp only [List.map_cons, List.flatten_cons]
    have lhs_eq : fs.map Prod.fst ++ ((b.keys ++ [f.1]) ++ (rest.map Bucket.keys).flatten)
        = (fs.map Prod.fst ++ b.keys) ++ (f.1 :: (rest.map Bucket.keys).flatten) := by
      simp [List.append_assoc]
    rw [lhs_eq]
    have rhs_perm : (((f.1 :: fs.map Prod.fst)
          ++ ((bs.map Bucket.keys).flatten))).Perm
        (f.1 :: ((fs.map Prod.fst ++ b.keys) ++ (rest.map Bucket.keys).flatten)) := by
      simp only [List.cons_append]
      refine List.Perm.cons f.1 ?_
      refine (hFbs.append_left (fs.map Prod.fst)).trans ?_
      rw [List.append_assoc]
    exact List.perm_middle.trans rhs_perm.symm

theorem rangeBuckets_keys_flatten (n : Nat) :
    (((List.range n).map (fun i => Bucket.mk 0 i [])).map Bucket.keys).flatten
      = ([] : List FlowTuple) := by
  have h : ∀ (l : List Nat),
      ((l.map (fun i => Bucket.mk 0 i [])).map Bucket.keys).flatten
        = ([] : List FlowTuple) := by
    intro l
    induction l with
    | nil => rfl
    | cons a as ih => simp [ih]
  exact h _

theorem flatten_map_flatten {α γ : Type} (g : α → List (List γ)) (l : List α) :
    (l.map (fun x => (g x).flatten)).flatten = ((l.map g).flatten).flatten := by
  induction l with
  | nil => rfl
  | cons a as ih => simp [ih]

theorem flatten_map_map {α β γ : Type} (kf : α → List β) (f : β → γ) (l : List α) :
    (l.map (fun x => (kf x).map f)).flatten = ((l.map kf).flatten).map f := by
  induction l with
  | nil => rfl
  | cons a as ih => simp [ih]

/-- Claim C7: for every capture at or above the size threshold (run with a
positive chunk count), the packets written across all output files are, as a
multiset, exactly the IPv4+TCP packets of the input — every qualifying
packet lands in exactly one output file, none is duplicated or lost, and
only non-qualifying packets are absent. -/
theorem C7_packet_conservation (fileSize thresholdMb defaultChunks : Nat)
    (ps : List Packet)
    (hsize : thresholdMb * 1048576 ≤ fileSize) (hdc : 1 ≤ defaultChunks) :
    (outputPackets (split fileSize thresholdMb defaultChunks ps)).Perm
      (ps.filter (fun p => (packetKey p).isSome)) := by
  have hgv := groupStreams_values_perm ps
  simp only [split]
  rw [if_neg (by omega)]
  by_cases hstr : (groupStreams ps).isEmpty
  · rw [if_pos hstr]
    have hnil : groupStreams ps = [] := by
      rcases hl : groupStreams ps with _ | ⟨e, es⟩
      · rfl
      · rw [hl] at hstr
        cases hstr
    rw [hnil] at hgv
    simp only [List.map_nil, List.flatten_nil] at hgv
    have hfil : ps.filter (fun p => (packetKey p).isSome) = [] := hgv.symm.eq_nil
    simp [outputPackets, hfil]
  · rw [if_neg hstr]
    simp only [outputPackets]
    rw [flatten_map_flatten
      (fun bk : Bucket => bk.keys.map (lookupStream (groupStreams ps)))]
    rw [flatten_map_map Bucket.keys (lookupStream (groupStreams ps))]
    -- the flattened key lists across final buckets are a permutation of the
    -- stream keys
    have hlenpos : 1 ≤ (groupStreams ps).length := by
      rcases hl : groupStreams ps with _ | ⟨e, es⟩
      · rw [hl] at hstr
        cases hstr rfl
      · simp
    have hb0 : ((List.range (min defaultChunks (groupStreams ps).length)).map
        (fun i => Bucket.mk 0 i [])) ≠ [] := by
      have : 1 ≤ min defaultChunks (groupStreams ps).length := by omega
      rcases hn : min defaultChunks (groupStreams ps).length with _ | m
      · omega
      · simp [List.range_succ_eq_map]
    have hKall :
        (((sSort (fun y x => y.idx ≤ x.idx)
            (assignLPT
              (sSort (fun y x => x.2 ≤ y.2) (streamSizes (groupStreams ps)))
              ((List.range (min defaultChunks (groupStreams ps).length)).map
                (fun i => Bucket.mk 0 i [])))).map Bucket.keys).flatten).Perm
          ((groupStreams ps).map Prod.fst) := by
      refine (perm_flatten_of_perm ((sSort_perm _ _).map Bucket.keys)).trans ?_
      refine (assignLPT_keys_perm _ _ hb0).trans ?_
      rw [rangeBuckets_keys_flatten, List.append_nil]
      refine ((sSort_perm _ _).map Prod.fst).trans ?_
      have : (streamSizes (groupStreams ps)).map Prod.fst
          = (groupStreams ps).map Prod.fst := by
        simp [streamSizes, List.map_map, Function.comp]
      rw [this]
    refine (perm_flatten_of_perm (hKall.map (lookupStream (groupStreams ps)))).trans ?_
    rw [map_lookupStream_keys (groupStreams ps) (groupStreams_keys_nodup ps)]
    exact hgv

/-- Witness for C7 at a 10 MB capture holding two TCP packets of one flow
and one non-TCP packet. -/
theorem C7_witness :
    10 * 1048576 ≤ 10485760 ∧ 1 ≤ 3
      ∧ (outputPackets (split 10485760 10 3
            [Packet.mk 0 [1, 2] (some ⟨[1], [2], 3, 4⟩),
             Packet.mk 1 [9] none,
             Packet.mk 2 [3] (some ⟨[2], [1], 4, 3⟩)])).Perm
          (([Packet.mk 0 [1, 2] (some ⟨[1], [2], 3, 4⟩),
             Packet.mk 1 [9] none,
             Packet.mk 2 [3] (some ⟨[2], [1], 4, 3⟩)]).filter
            (fun p => (packetKey p).isSome)) :=
  ⟨by decide, by decide,
    C7_packet_conservation 10485760 10 3 _ (by decide) (by decide)⟩

/-! ## Claim C8 -/

/-- Claim C8: the greedy Longest-Processing-Time partition is deterministic
given the flow sizes and the chunk-count parameter: any two inputs that
produce the same ordered flow-size table receive the identical
flow-to-bucket assignment (and `split` is a pure function of its inputs, so
two runs on the same capture with the same parameters agree on
everything). -/
theorem C8_assignment_deterministic (ps1 ps2 : List Packet) (dc : Nat)
    (h : streamSizes (groupStreams ps1) = streamSizes (groupStreams ps2)) :
    bucketAssignment dc ps1 = bucketAssignment dc ps2 := by
  have hlen : (groupStreams ps1).length = (groupStreams ps2).length := by
    have hc := congrArg List.length h
    simpa [streamSizes] using hc
  simp only [bucketAssignment]
  rw [h, hlen]

/-- Witness for C8: two captures with the same single flow and sizes but
different timestamps and frame bytes get the same assignment. -/
theorem C8_witness :
    streamSizes (groupStreams [Packet.mk 0 [7, 7] (some ⟨[1], [2], 3, 4⟩)])
        = streamSizes (groupStreams [Packet.mk 1 [9, 9] (some ⟨[1], [2], 3, 4⟩)])
      ∧ bucketAssignment 3 [Packet.mk 0 [7, 7] (some ⟨[1], [2], 3, 4⟩)]
          = bucketAssignment 3 [Packet.mk 1 [9, 9] (some ⟨[1], [2], 3, 4⟩)] :=
  ⟨by decide,
    C8_assignment_deterministic _ _ 3 (by decide)⟩

end FlowSpec
